import Mathlib

/-!
Shallow embedding of the monster-sync repository (src/main.rs, src/sync.rs).

Paths are modelled as UTF-8 strings, operated on through their character
lists.  The path operations mirror the Rust `std::path` functions used by
the source (`with_file_name`, `with_extension`, `join`) for Unix paths in
normal form: no repeated or trailing separators and file-name components
that are neither `.` nor `..`.  Filesystems are association lists from path
to file content; the OS process table is a liveness predicate on PIDs.
-/

/-- Single-quote character, written via its code point. -/
def squoteC : Char := Char.ofNat 39

/-- Single-quote as a one-character string. -/
def squote : String := String.mk [squoteC]

/-- Unix path separator. -/
def sepC : Char := '/'

/-- Last path component of `p` (the characters after the final separator).
Mirrors `Path::file_name` for normal-form paths. -/
def fileNameL (p : List Char) : List Char :=
  (p.reverse.takeWhile (fun c => c != sepC)).reverse

/-- Everything up to and including the final separator of `p` (empty when
`p` has no separator). -/
def dirPrefixL (p : List Char) : List Char :=
  (p.reverse.dropWhile (fun c => c != sepC)).reverse

/-- Mirrors `Path::with_file_name`: replace the final component of `p` by
`name` (for normal-form paths). -/
def withFileNameL (p name : List Char) : List Char :=
  dirPrefixL p ++ name

/-- Mirrors `Path::set_extension` applied to a bare file name `name`:
the extension is the portion after the final dot, except that a name whose
only dot is leading has no extension; the new extension replaces it (or is
appended when there is none).  Faithful for names other than `.` and `..`. -/
def withExtL (name ext : List Char) : List Char :=
  match name.reverse.dropWhile (fun c => c != '.') with
  | [] => if ext = [] then name else name ++ '.' :: ext
  | _ :: stemRev =>
      if stemRev = [] then (if ext = [] then name else name ++ '.' :: ext)
      else if ext = [] then stemRev.reverse else stemRev.reverse ++ '.' :: ext

/-- Mirrors `Path::with_extension` on a whole path: the extension change
touches only the file-name component. -/
def withExtensionL (p ext : List Char) : List Char :=
  dirPrefixL p ++ withExtL (fileNameL p) ext

/-- Mirrors `PathBuf::join` / `push`: an absolute right operand replaces the
path, otherwise the components are joined with a separator unless the base
is empty or already ends with one. -/
def pathJoinL (base comp : List Char) : List Char :=
  if comp.head? = some sepC then comp
  else if base = [] then comp
  else if base.getLast? = some sepC then base ++ comp
  else base ++ sepC :: comp

/-- Last path component, on strings. -/
def fileNameOf (p : String) : String :=
  String.mk (fileNameL p.data)

/-- Rust `char::is_whitespace` (the Unicode `White_Space` property), as
used by `str::trim`. -/
def rustIsWhitespace (c : Char) : Bool :=
  c.toNat = 9 || c.toNat = 10 || c.toNat = 11 || c.toNat = 12 || c.toNat = 13 ||
  c.toNat = 32 || c.toNat = 133 || c.toNat = 160 || c.toNat = 5760 ||
  (8192 ≤ c.toNat && c.toNat ≤ 8202) || c.toNat = 8232 || c.toNat = 8233 ||
  c.toNat = 8239 || c.toNat = 8287 || c.toNat = 12288

/-- Rust `str::trim`: strip leading and trailing whitespace. -/
def rustTrim (s : List Char) : List Char :=
  ((s.dropWhile rustIsWhitespace).reverse.dropWhile rustIsWhitespace).reverse

/-- Rust `str::parse::<u32>`: an optional leading `+` sign, then one or more
ASCII decimal digits, value below `2^32`; anything else is an error. -/
def parseU32 (s : List Char) : Option Nat :=
  let digits := match s with
    | '+' :: rest => rest
    | _ => s
  if digits = [] then none
  else if digits.all Char.isDigit then
    let v := digits.foldl (fun a c => a * 10 + (c.toNat - 48)) 0
    if v < 4294967296 then some v else none
  else none

/-- Strip up to `fuel` leading occurrences of `pat` from `s`; with
`fuel = s.length` this is Rust `str::trim_start_matches`, which removes
every successive occurrence of the pattern. -/
def stripAll (pat : List Char) : Nat → List Char → List Char
  | 0, s => s
  | fuel + 1, s =>
      if pat.isPrefixOf s && !pat.isEmpty then stripAll pat fuel (s.drop pat.length)
      else s

/-- Rust `str::trim_start_matches`. -/
def trimStartL (s pat : List Char) : List Char :=
  stripAll pat s.length s

/-- Rust `str::trim_end_matches`, via the reversed string. -/
def trimEndL (s pat : List Char) : List Char :=
  (stripAll pat.reverse s.length s.reverse).reverse

/-- Configuration record deserialized in src/main.rs (struct SyncConfig).
The field `pid_file_pre` embeds the source field `pid_file_prefix`; the
misspelling `pid_file_extention` is the source's own. -/
structure SyncConfig where
  remote_user : String
  remote_host : String
  base_local_path : String
  base_remote_path : String
  sync_back : String
  pid_file_path : String
  pid_file_pre : String
  pid_file_extention : String
  use_server : Bool
deriving DecidableEq

/-- Resolved Sync Target (struct SyncHandle in src/sync.rs). -/
structure SyncHandle where
  pid_file : String
  local_path : String
  remote_path : String
  config : SyncConfig
deriving DecidableEq

/-- PID-file path construction from `SyncHandle::new`:
`pid_file_path.with_file_name(format!("{}_{}", prefix, repo)).with_extension(ext)`. -/
def pidFilePath (cfg : SyncConfig) (repo : String) : String :=
  String.mk
    (withExtensionL
      (withFileNameL cfg.pid_file_path.data (cfg.pid_file_pre.data ++ '_' :: repo.data))
      cfg.pid_file_extention.data)

/-- Embeds `SyncHandle::new` from src/sync.rs. -/
def SyncHandle.new (cfg : SyncConfig) (repo : String) : SyncHandle :=
  { pid_file := pidFilePath cfg repo
    local_path := String.mk (pathJoinL cfg.base_local_path.data repo.data)
    remote_path := String.mk (pathJoinL cfg.base_remote_path.data repo.data)
    config := cfg }

/-- Embeds `SyncHandle::make_remote_url` from src/sync.rs. -/
def SyncHandle.make_remote_url (h : SyncHandle) : String :=
  if h.config.use_server then
    "rsync://" ++ h.config.remote_host ++ "/" ++ h.remote_path
  else
    h.config.remote_user ++ "@" ++ h.config.remote_host ++ ":" ++ h.remote_path

/-- Argument list of the push invocation built in `SyncHandle::sync_to_remote`.
The single quotes inside the filter arguments are literal characters of the
arguments: the subprocess is spawned without a shell, so nothing strips them. -/
def pushArgs (h : SyncHandle) : List String :=
  ["-avz", "--delete", h.local_path,
   "--exclude=" ++ squote ++ ".git/" ++ squote,
   "--filter=" ++ squote ++ ":- .gitignore" ++ squote,
   h.make_remote_url]

/-- Argument list of the pull invocation built in
`SyncHandle::sync_compile_commands`. -/
def pullArgs (h : SyncHandle) : List String :=
  ["-avz",
   "--include=" ++ squote ++ h.config.sync_back ++ squote,
   "--exclude=" ++ squote ++ "*" ++ squote,
   h.make_remote_url,
   h.local_path]

/-- Result of spawning the external transfer tool: it either produced an
exit status (success is status zero) or failed to start. -/
structure CmdOutput where
  exitCode : Nat
  stderr : String
deriving DecidableEq

/-- Outcome of `Command::output()` in the source. -/
inductive CmdResult where
  | ok (out : CmdOutput)
  | execError
deriving DecidableEq

/-- Embeds one watch-loop iteration's transfer work
(`SyncHandle::sync_to_remote` followed, on success only, by
`SyncHandle::sync_compile_commands`): returns the argument lists of the
subprocess invocations performed, in order.  `run` is the environment's
behaviour of `Command::output()` on a given argument list. -/
def sync_to_remote (h : SyncHandle) (run : List String → CmdResult) : List (List String) :=
  match run (pushArgs h) with
  | CmdResult.ok out => if out.exitCode = 0 then [pushArgs h, pullArgs h] else [pushArgs h]
  | CmdResult.execError => [pushArgs h]

/-- Boolean string-prefix test on the character lists. -/
def strIsPrefixOf (p s : String) : Bool :=
  p.data.isPrefixOf s.data

/-- Inclusion filters of an rsync argument list: the patterns carried by
arguments of the form `--include=<pattern>`. -/
def includeFilters (args : List String) : List String :=
  (args.filter (fun a => strIsPrefixOf "--include=" a)).map (fun a => String.mk (a.data.drop 10))

/-- Filesystem model for the PID-file directory: an association list from
path to file content.  A real directory holds at most one entry per path;
the commands below preserve that. -/
abbrev Fs := List (String × String)

/-- Content of the file at `p`, when present. -/
def readFile (fs : Fs) (p : String) : Option String :=
  match fs with
  | [] => none
  | e :: rest => if e.1 = p then some e.2 else readFile rest p

/-- Deletion of the file at `p` (`std::fs::remove_file`). -/
def removeFile (fs : Fs) (p : String) : Fs :=
  fs.filter (fun e => e.1 != p)

/-- Number of entries stored under path `p`. -/
def countFor (fs : Fs) (p : String) : Nat :=
  fs.countP (fun e => e.1 == p)

/-- Outcome of the `start` command (fn start_sync in src/main.rs). -/
inductive StartResult where
  | Started
  | LocalPathMissing
  | AlreadyRunning
  | DaemonizeFailed
deriving DecidableEq

/-- Embeds `fn start_sync` from src/main.rs.  `localExists` is the
environment's answer to `Path::exists`; `daemon` is the outcome of
`Daemonize::execute` (`some pid` detaches a child with that PID, whose PID
file the daemonize library then writes; `none` is a detach failure).
The two `ensure!` preconditions are checked in source order: the local
path first, then the PID file. -/
def start_sync (localExists : String → Bool) (fs : Fs) (h : SyncHandle)
    (daemon : Option Nat) : StartResult × Fs :=
  if localExists h.local_path = false then (StartResult.LocalPathMissing, fs)
  else if (readFile fs h.pid_file).isSome then (StartResult.AlreadyRunning, fs)
  else
    match daemon with
    | none => (StartResult.DaemonizeFailed, fs)
    | some pid => (StartResult.Started, (h.pid_file, toString pid) :: fs)

/-- Outcome of the `stop` command (fn stop_sync in src/main.rs). -/
inductive StopResult where
  | Stopped (pid : Nat)
  | CleanedStale (pid : Nat)
  | NotRunning
  | CorruptState
deriving DecidableEq

/-- Embeds `fn stop_sync` from src/main.rs: read the PID file (absence is
the NotRunning error), trim and parse it as u32 (failure is the
CorruptState error, before any deletion), signal the process when alive,
and remove the PID file in both the alive and the stale case. -/
def stop_sync (live : Nat → Bool) (fs : Fs) (h : SyncHandle) : StopResult × Fs :=
  match readFile fs h.pid_file with
  | none => (StopResult.NotRunning, fs)
  | some content =>
    match parseU32 (rustTrim content.data) with
    | none => (StopResult.CorruptState, fs)
    | some pid =>
      if live pid then (StopResult.Stopped pid, removeFile fs h.pid_file)
      else (StopResult.CleanedStale pid, removeFile fs h.pid_file)

/-- Outcome of the `status` command (fn status_sync in src/main.rs). -/
inductive StatusResult where
  | Running (pid : Nat)
  | Stale
  | NotRunning
  | CorruptState
deriving DecidableEq

/-- Embeds `fn status_sync` from src/main.rs: read the PID file (absence is
the NotRunning error), trim and parse (failure is CorruptState, no
deletion); when the process is alive report it and change nothing, when it
is absent report the stale state and delete the PID file. -/
def status_sync (live : Nat → Bool) (fs : Fs) (h : SyncHandle) : StatusResult × Fs :=
  match readFile fs h.pid_file with
  | none => (StatusResult.NotRunning, fs)
  | some content =>
    match parseU32 (rustTrim content.data) with
    | none => (StatusResult.CorruptState, fs)
    | some pid =>
      if live pid then (StatusResult.Running pid, fs)
      else (StatusResult.Stale, removeFile fs h.pid_file)

/-- Hardcoded pattern stripped from the front of a PID file name by
`fn list_syncs` (`trim_start_matches("repo_sync_")`). -/
def listStrip1 : List Char := "repo_sync_".data

/-- Hardcoded pattern stripped from the back of a PID file name by
`fn list_syncs` (`trim_end_matches(".pid")`). -/
def listStrip2 : List Char := ".pid".data

/-- Repository name as `fn list_syncs` derives it from a PID file name:
strip every leading "repo_sync_" and every trailing ".pid". -/
def parseRepoName (fname : String) : String :=
  String.mk (trimEndL (trimStartL fname.data listStrip1) listStrip2)

/-- Result of the `list` command: the (repository name, liveness) lines
printed, the PID files remaining on disk, and whether the enumeration ran
to completion (`false` when a read/parse error aborted it). -/
structure ListOutcome where
  reported : List (String × Bool)
  remaining : Fs
  ok : Bool
deriving DecidableEq

/-- Embeds the enumeration loop of `fn list_syncs` from src/main.rs over
the glob-matched PID files in enumeration order: for each file derive the
repository name, read and parse the PID (a failure propagates with `?`,
aborting the whole command with the later files untouched), report the
entry, and delete the file when its process is absent. -/
def list_syncs (live : Nat → Bool) : Fs → ListOutcome
  | [] => ⟨[], [], true⟩
  | e :: rest =>
    match parseU32 (rustTrim e.2.data) with
    | none => ⟨[], e :: rest, false⟩
    | some pid =>
      let r := list_syncs live rest
      if live pid then
        ⟨(parseRepoName (fileNameOf e.1), true) :: r.reported, e :: r.remaining, r.ok⟩
      else
        ⟨(parseRepoName (fileNameOf e.1), false) :: r.reported, r.remaining, r.ok⟩

/-- Liveness of the process recorded in a PID-file content string, the way
the enumeration loop reads it: false when the content does not parse. -/
def contentLive (live : Nat → Bool) (c : String) : Bool :=
  match parseU32 (rustTrim c.data) with
  | some pid => live pid
  | none => false

/-- Concatenation of strings concatenates their character lists. -/
theorem strData (a b : String) : (a ++ b).data = a.data ++ b.data := rfl

/-- Strings with equal character lists are equal. -/
theorem strInj {a b : String} (h : a.data = b.data) : a = b :=
  congrArg String.mk h

/-- Take-while passes over a block that satisfies the predicate. -/
theorem takeWhileAppend {p : Char → Bool} {a : List Char} (b : List Char)
    (h : ∀ x ∈ a, p x = true) : (a ++ b).takeWhile p = a ++ b.takeWhile p := by
  induction a with
  | nil => simp
  | cons x xs ih =>
      have hx := h x (by simp)
      simp only [List.cons_append, List.takeWhile_cons, hx]
      simp [ih fun y hy => h y (by simp [hy])]

/-- Drop-while consumes a block that satisfies the predicate. -/
theorem dropWhileAppend {p : Char → Bool} {a : List Char} (b : List Char)
    (h : ∀ x ∈ a, p x = true) : (a ++ b).dropWhile p = b.dropWhile p := by
  induction a with
  | nil => simp
  | cons x xs ih =>
      have hx := h x (by simp)
      simp only [List.cons_append, List.dropWhile_cons, hx]
      simp [ih fun y hy => h y (by simp [hy])]

/-- Directory part of a path whose final component `f` holds no separator. -/
theorem dirPrefixL_append {d f : List Char} (hf : sepC ∉ f) :
    dirPrefixL (d ++ sepC :: f) = d ++ [sepC] := by
  unfold dirPrefixL
  have hrev : (d ++ sepC :: f).reverse = f.reverse ++ sepC :: d.reverse := by
    simp
  rw [hrev, dropWhileAppend _ (fun x hx => by
    have : x ≠ sepC := fun he => hf (he ▸ List.mem_reverse.mp hx)
    simpa using this)]
  simp [List.dropWhile_cons]

/-- File-name part of a path whose final component `f` holds no separator. -/
theorem fileNameL_append {d f : List Char} (hf : sepC ∉ f) :
    fileNameL (d ++ sepC :: f) = f := by
  unfold fileNameL
  have hrev : (d ++ sepC :: f).reverse = f.reverse ++ sepC :: d.reverse := by
    simp
  rw [hrev, takeWhileAppend _ (fun x hx => by
    have : x ≠ sepC := fun he => hf (he ▸ List.mem_reverse.mp hx)
    simpa using this)]
  simp [List.takeWhile_cons]

/-- Setting the extension of a dot-free file name appends the extension. -/
theorem withExtL_no_dot {name ext : List Char} (hd : ('.' : Char) ∉ name)
    (he : ext ≠ []) : withExtL name ext = name ++ '.' :: ext := by
  have hdrop : name.reverse.dropWhile (fun c => c != '.') = [] := by
    rw [List.dropWhile_eq_nil_iff]
    intro x hx
    have : x ≠ '.' := fun hxe => hd (hxe ▸ List.mem_reverse.mp hx)
    simpa using this
  unfold withExtL
  rw [hdrop]
  simp [he]

/-- Joining a normal-form base with a relative component inserts one
separator. -/
theorem pathJoinL_eq {base comp : List Char} (h1 : comp.head? ≠ some sepC)
    (h2 : base ≠ []) (h3 : base.getLast? ≠ some sepC) :
    pathJoinL base comp = base ++ sepC :: comp := by
  unfold pathJoinL
  rw [if_neg h1, if_neg h2, if_neg h3]

/-- Boolean list-prefix test agrees with the prefix relation. -/
theorem isPrefixOfTrueIff (a b : List Char) : a.isPrefixOf b = true ↔ a <+: b := by
  induction a generalizing b with
  | nil => simp [List.isPrefixOf]
  | cons x xs ih =>
      cases b with
      | nil => simp [List.isPrefixOf]
      | cons y ys =>
          show (x == y && xs.isPrefixOf ys) = true ↔ _
          rw [Bool.and_eq_true, beq_iff_eq, ih, List.cons_prefix_cons]

/-- Two prefixes of one list are comparable. -/
theorem prefixTotal {a b c : List Char} (ha : a <+: c) (hb : b <+: c) :
    a <+: b ∨ b <+: a := by
  induction c generalizing a b with
  | nil =>
      obtain ⟨t, ht⟩ := ha
      have : a = [] := (List.append_eq_nil.mp ht).1
      exact Or.inl (this ▸ ⟨b, rfl⟩)
  | cons x xs ih =>
      cases a with
      | nil => exact Or.inl ⟨b, rfl⟩
      | cons y ys =>
          cases b with
          | nil => exact Or.inr ⟨y :: ys, rfl⟩
          | cons z zs =>
              rw [List.cons_prefix_cons] at ha hb
              rcases ih ha.2 hb.2 with h | h
              · exact Or.inl (List.cons_prefix_cons.mpr ⟨ha.1.trans hb.1.symm, h⟩)
              · exact Or.inr (List.cons_prefix_cons.mpr ⟨hb.1.trans ha.1.symm, h⟩)

/-- Stripping is the identity when the pattern is not a prefix. -/
theorem stripAll_not (pat s : List Char) (fuel : Nat)
    (h : pat.isPrefixOf s = false) : stripAll pat fuel s = s := by
  cases fuel <;> simp [stripAll, h]

/-- One stripping step removes the leading pattern occurrence; when the
rest holds no further occurrence the result is the rest. -/
theorem stripAll_once (pat xs : List Char) (fuel : Nat) (hne : pat ≠ [])
    (h : pat.isPrefixOf xs = false) (hf : fuel ≠ 0) :
    stripAll pat fuel (pat ++ xs) = xs := by
  cases fuel with
  | zero => exact absurd rfl hf
  | succ n =>
      have hp : pat.isPrefixOf (pat ++ xs) = true :=
        (isPrefixOfTrueIff _ _).mpr ⟨xs, rfl⟩
      have hemp : pat.isEmpty = false := by
        cases pat with
        | nil => exact absurd rfl hne
        | cons c cs => rfl
      simp only [stripAll, hp, hemp, Bool.not_false, Bool.and_self, if_true,
        List.drop_left]
      exact stripAll_not pat xs n h

/-- The hardcoded list prefix "repo_sync_" is not a prefix of `R ++ ".pid"`
when it is not a prefix of the dot-free `R`. -/
theorem listStrip1_not_prefix_pad {R : List Char}
    (hp : listStrip1.isPrefixOf R = false) :
    listStrip1.isPrefixOf (R ++ listStrip2) = false := by
  by_contra hcon
  rw [Bool.not_eq_false] at hcon
  have hpre : listStrip1 <+: R ++ listStrip2 := (isPrefixOfTrueIff _ _).mp hcon
  have hR : R <+: R ++ listStrip2 := ⟨listStrip2, rfl⟩
  rcases prefixTotal hpre hR with h1 | h2
  · rw [(isPrefixOfTrueIff _ _).mpr h1] at hp
    cases hp
  · obtain ⟨t, ht⟩ := h2
    cases t with
    | nil =>
        have : listStrip1 <+: R := by
          rw [← ht]
          simpa using ⟨[], rfl⟩
        rw [(isPrefixOfTrueIff _ _).mpr this] at hp
        cases hp
    | cons c t' =>
        obtain ⟨u, hu⟩ := hpre
        rw [← ht, List.append_assoc] at hu
        have htail : (c :: t') ++ u = listStrip2 := List.append_cancel_left hu
        have hc : c = '.' := by
          have := congrArg List.head? htail
          simpa [listStrip2] using this
        have : ('.' : Char) ∈ listStrip1 := by
          rw [← ht, hc]
          simp
        revert this
        decide

/-- Reversed ".pid" is not a prefix of the reverse of a dot-free name. -/
theorem revStrip2_not_prefix_rev {R : List Char} (hdot : ('.' : Char) ∉ R) :
    listStrip2.reverse.isPrefixOf R.reverse = false := by
  by_contra hcon
  rw [Bool.not_eq_false] at hcon
  have hpre : listStrip2.reverse <+: R.reverse := (isPrefixOfTrueIff _ _).mp hcon
  have : ('.' : Char) ∈ R.reverse :=
    hpre.sublist.subset (by decide : ('.' : Char) ∈ listStrip2.reverse)
  exact hdot (List.mem_reverse.mp this)

/-- Round trip of the repository name through the hardcoded list parsing:
stripping "repo_sync_" and ".pid" from `"repo_sync_" ++ R ++ ".pid"`
recovers `R` when `R` is dot-free and does not itself start with
"repo_sync_". -/
theorem parseRoundtripL {R : List Char} (hdot : ('.' : Char) ∉ R)
    (hp : listStrip1.isPrefixOf R = false) :
    trimEndL (trimStartL (listStrip1 ++ (R ++ listStrip2)) listStrip1) listStrip2 = R := by
  have h1 : trimStartL (listStrip1 ++ (R ++ listStrip2)) listStrip1 = R ++ listStrip2 := by
    unfold trimStartL
    exact stripAll_once _ _ _ (by decide) (listStrip1_not_prefix_pad hp)
      (by simp [listStrip1])
  rw [h1]
  unfold trimEndL
  rw [List.reverse_append,
    stripAll_once _ _ _ (by decide) (revStrip2_not_prefix_rev hdot)
      (by simp [listStrip2]),
    List.reverse_reverse]

/-- Deleting a path makes it unreadable. -/
theorem readFile_removeFile (fs : Fs) (p : String) :
    readFile (removeFile fs p) p = none := by
  induction fs with
  | nil => rfl
  | cons e rest ih =>
      by_cases h : e.1 = p
      · simpa [removeFile, List.filter_cons, h] using ih
      · simpa [removeFile, List.filter_cons, h, readFile] using ih

/-- An unreadable path has no stored entries. -/
theorem countFor_zero (fs : Fs) (p : String) (h : readFile fs p = none) :
    countFor fs p = 0 := by
  induction fs with
  | nil => rfl
  | cons e rest ih =>
      by_cases he : e.1 = p
      · simp [readFile, he] at h
      · have h' : readFile rest p = none := by
          simpa [readFile, he] using h
        simpa [countFor, List.countP_cons, he] using ih h'

/-- Character lists of the PID-file path resolved by `SyncHandle::new`, for
a normal-form template `<d>/<f>` and a prefix and repository name free of
separators and dots. -/
theorem pidFileData (cfg : SyncConfig) (repo d f : String)
    (htmpl : cfg.pid_file_path.data = d.data ++ sepC :: f.data)
    (hf : sepC ∉ f.data)
    (h1 : sepC ∉ cfg.pid_file_pre.data) (h2 : ('.' : Char) ∉ cfg.pid_file_pre.data)
    (h3 : sepC ∉ repo.data) (h4 : ('.' : Char) ∉ repo.data)
    (hext : cfg.pid_file_extention.data ≠ []) :
    (pidFilePath cfg repo).data =
      d.data ++ sepC ::
        ((cfg.pid_file_pre.data ++ '_' :: repo.data) ++ '.' :: cfg.pid_file_extention.data) := by
  have hname : sepC ∉ cfg.pid_file_pre.data ++ '_' :: repo.data := by
    intro hmem
    rcases List.mem_append.mp hmem with hA | hB
    · exact h1 hA
    · rcases List.mem_cons.mp hB with hC | hD
      · exact absurd hC (by decide)
      · exact h3 hD
  have hdotname : ('.' : Char) ∉ cfg.pid_file_pre.data ++ '_' :: repo.data := by
    intro hmem
    rcases List.mem_append.mp hmem with hA | hB
    · exact h2 hA
    · rcases List.mem_cons.mp hB with hC | hD
      · exact absurd hC (by decide)
      · exact h4 hD
  show withExtensionL
      (withFileNameL cfg.pid_file_path.data (cfg.pid_file_pre.data ++ '_' :: repo.data))
      cfg.pid_file_extention.data = _
  rw [withFileNameL, htmpl, dirPrefixL_append hf]
  have hshape : (d.data ++ [sepC]) ++ (cfg.pid_file_pre.data ++ '_' :: repo.data) =
      d.data ++ sepC :: (cfg.pid_file_pre.data ++ '_' :: repo.data) := by
    simp
  rw [hshape, withExtensionL, dirPrefixL_append hname, fileNameL_append hname,
    withExtL_no_dot hdotname hext]
  simp

/-- C3 (confirmed): for a nonempty remote base with no trailing separator
and a relative repository name, the remote-login address is
`<user>@<host>:<remoteBase>/<repo>`, the managed-server address is
`rsync://<host>/<remoteBase>/<repo>`, and both the push and the pull
argument lists carry the one string `make_remote_url` of the Sync Target
as their remote address. -/
theorem c3_remote_url_forms (cfg : SyncConfig) (repo : String)
    (h1 : cfg.base_remote_path.data ≠ [])
    (h2 : cfg.base_remote_path.data.getLast? ≠ some sepC)
    (h3 : repo.data.head? ≠ some sepC) :
    (cfg.use_server = false →
      (SyncHandle.new cfg repo).make_remote_url =
        cfg.remote_user ++ "@" ++ cfg.remote_host ++ ":" ++
          cfg.base_remote_path ++ "/" ++ repo) ∧
    (cfg.use_server = true →
      (SyncHandle.new cfg repo).make_remote_url =
        "rsync://" ++ cfg.remote_host ++ "/" ++ cfg.base_remote_path ++ "/" ++ repo) ∧
    (pushArgs (SyncHandle.new cfg repo)).getLast? =
      some (SyncHandle.new cfg repo).make_remote_url ∧
    (pullArgs (SyncHandle.new cfg repo)).get? 3 =
      some (SyncHandle.new cfg repo).make_remote_url := by
  have hrp : (SyncHandle.new cfg repo).remote_path =
      cfg.base_remote_path ++ "/" ++ repo := by
    apply strInj
    show pathJoinL cfg.base_remote_path.data repo.data = _
    rw [pathJoinL_eq h3 h1 h2]
    simp [String.data_append, sepC]
  refine ⟨?_, ?_, ?_, ?_⟩
  · intro hs
    show (if (SyncHandle.new cfg repo).config.use_server then _ else _) = _
    have hc : (SyncHandle.new cfg repo).config = cfg := rfl
    rw [hc, hs]
    simp only [Bool.false_eq_true, if_false]
    rw [hrp, ← String.append_assoc, ← String.append_assoc]
  · intro hs
    show (if (SyncHandle.new cfg repo).config.use_server then _ else _) = _
    have hc : (SyncHandle.new cfg repo).config = cfg := rfl
    rw [hc, hs]
    simp only [if_true]
    rw [hrp, ← String.append_assoc, ← String.append_assoc]
  · rfl
  · rfl

/-- Sample configuration in remote-login transport mode. -/
def cfgLogin : SyncConfig :=
  ⟨"alice", "box", "/home/alice/dev", "/srv/mirror", "compile_commands.json",
   "/run/msync.pid", "repo_sync", "pid", false⟩

/-- Sample configuration in managed-server transport mode. -/
def cfgServer : SyncConfig :=
  ⟨"alice", "box", "/home/alice/dev", "/srv/mirror", "compile_commands.json",
   "/run/msync.pid", "repo_sync", "pid", true⟩

/-- C3 witness: both address forms evaluated at a concrete configuration
and repository name. -/
theorem c3_remote_url_witness :
    (SyncHandle.new cfgLogin "foo").make_remote_url =
      "alice" ++ "@" ++ "box" ++ ":" ++ "/srv/mirror" ++ "/" ++ "foo" ∧
    (SyncHandle.new cfgServer "foo").make_remote_url =
      "rsync://" ++ "box" ++ "/" ++ "/srv/mirror" ++ "/" ++ "foo" :=
  ⟨(c3_remote_url_forms cfgLogin "foo" (by decide) (by decide) (by decide)).1 rfl,
   (c3_remote_url_forms cfgServer "foo" (by decide) (by decide) (by decide)).2.1 rfl⟩

/-- C2 (corrected) counterexample: for the repository name `a.b` the code's
`with_extension` call replaces the `.b` tail, so the PID-file path is
`/run/repo_sync_a.pid` and not the `<directory>/<prefix>_<repoName>.<extension>`
of the claim. -/
theorem c2_pid_file_counterexample :
    (SyncHandle.new cfgLogin "a.b").pid_file = "/run/repo_sync_a.pid" ∧
    "/run/repo_sync_a.pid" ≠
      "/run" ++ "/" ++ "repo_sync" ++ "_" ++ "a.b" ++ "." ++ "pid" := by
  decide

/-- C2 (amended): for a normal-form PID-file path template `<d>/<f>`, a
prefix and repository name free of separators and dots, a nonempty
extension, and normal-form base paths with a relative repository name, the
resolved Sync Target is `<d>/<prefix>_<repo>.<ext>`,
`<localBase>/<repo>` and `<remoteBase>/<repo>`. -/
theorem c2_target_resolution_amended (cfg : SyncConfig) (repo d f : String)
    (htmpl : cfg.pid_file_path.data = d.data ++ sepC :: f.data)
    (hf : sepC ∉ f.data) (hfne : f.data ≠ [])
    (h1 : sepC ∉ cfg.pid_file_pre.data) (h2 : ('.' : Char) ∉ cfg.pid_file_pre.data)
    (h3 : sepC ∉ repo.data) (h4 : ('.' : Char) ∉ repo.data)
    (hext : cfg.pid_file_extention.data ≠ [])
    (hl1 : cfg.base_local_path.data ≠ [])
    (hl2 : cfg.base_local_path.data.getLast? ≠ some sepC)
    (hr1 : cfg.base_remote_path.data ≠ [])
    (hr2 : cfg.base_remote_path.data.getLast? ≠ some sepC)
    (hrel : repo.data.head? ≠ some sepC) :
    (SyncHandle.new cfg repo).pid_file =
      d ++ "/" ++ cfg.pid_file_pre ++ "_" ++ repo ++ "." ++ cfg.pid_file_extention ∧
    (SyncHandle.new cfg repo).local_path = cfg.base_local_path ++ "/" ++ repo ∧
    (SyncHandle.new cfg repo).remote_path = cfg.base_remote_path ++ "/" ++ repo := by
  refine ⟨?_, ?_, ?_⟩
  · apply strInj
    show (pidFilePath cfg repo).data = _
    rw [pidFileData cfg repo d f htmpl hf h1 h2 h3 h4 hext]
    simp [String.data_append, sepC]
  · apply strInj
    show pathJoinL cfg.base_local_path.data repo.data = _
    rw [pathJoinL_eq hrel hl1 hl2]
    simp [String.data_append, sepC]
  · apply strInj
    show pathJoinL cfg.base_remote_path.data repo.data = _
    rw [pathJoinL_eq hrel hr1 hr2]
    simp [String.data_append, sepC]

/-- C2 witness: the amended resolution evaluated at a concrete
configuration and repository name. -/
theorem c2_target_resolution_witness :
    (SyncHandle.new cfgLogin "demo").pid_file =
      "/run" ++ "/" ++ "repo_sync" ++ "_" ++ "demo" ++ "." ++ "pid" ∧
    (SyncHandle.new cfgLogin "demo").local_path = "/home/alice/dev" ++ "/" ++ "demo" ∧
    (SyncHandle.new cfgLogin "demo").remote_path = "/srv/mirror" ++ "/" ++ "demo" :=
  c2_target_resolution_amended cfgLogin "demo" "/run" "msync.pid" (by decide)
    (by decide) (by decide) (by decide) (by decide) (by decide) (by decide)
    (by decide) (by decide) (by decide) (by decide) (by decide) (by decide)

/-- Sample configuration whose PID-file prefix is not the hardcoded
"repo_sync". -/
def cfgPre : SyncConfig :=
  ⟨"alice", "box", "/home/alice/dev", "/srv/mirror", "compile_commands.json",
   "/run/msync.pid", "p", "pid", false⟩

/-- C4 (corrected) counterexample: with configured prefix "p" the PID file
for repository `foo` is named `p_foo.pid`, but the enumeration strips the
hardcoded "repo_sync_" and ".pid", so list reports `p_foo`, not `foo`. -/
theorem c4_roundtrip_counterexample :
    parseRepoName (fileNameOf (SyncHandle.new cfgPre "foo").pid_file) = "p_foo" ∧
    "p_foo" ≠ "foo" := by
  decide

/-- C4 (amended): when the configured prefix is exactly "repo_sync" and the
extension exactly "pid", and the repository name holds no separator and no
dot and does not itself start with "repo_sync_", the name list reports for
the PID file of repository `R` is `R`. -/
theorem c4_roundtrip_amended (cfg : SyncConfig) (repo d f : String)
    (htmpl : cfg.pid_file_path.data = d.data ++ sepC :: f.data)
    (hf : sepC ∉ f.data)
    (hpre : cfg.pid_file_pre = "repo_sync")
    (hext : cfg.pid_file_extention = "pid")
    (h3 : sepC ∉ repo.data) (h4 : ('.' : Char) ∉ repo.data)
    (h5 : listStrip1.isPrefixOf repo.data = false) :
    parseRepoName (fileNameOf (SyncHandle.new cfg repo).pid_file) = repo := by
  have hdata := pidFileData cfg repo d f htmpl hf
    (by rw [hpre]; decide) (by rw [hpre]; decide) h3 h4 (by rw [hext]; decide)
  rw [hpre, hext] at hdata
  have hname : sepC ∉ ("repo_sync".data ++ '_' :: repo.data) ++ '.' :: "pid".data := by
    intro hmem
    rcases List.mem_append.mp hmem with hA | hB
    · rcases List.mem_append.mp hA with hC | hD
      · revert hC; decide
      · rcases List.mem_cons.mp hD with hE | hF
        · exact absurd hE (by decide)
        · exact h3 hF
    · revert hB; decide
  have hfile : fileNameL (SyncHandle.new cfg repo).pid_file.data =
      listStrip1 ++ (repo.data ++ listStrip2) := by
    show fileNameL (pidFilePath cfg repo).data = _
    rw [hdata, fileNameL_append hname]
    have e1 : listStrip1 = "repo_sync".data ++ ['_'] := by decide
    have e2 : listStrip2 = '.' :: "pid".data := by decide
    rw [e1, e2]
    simp
  apply strInj
  show trimEndL (trimStartL (fileNameL (SyncHandle.new cfg repo).pid_file.data)
      listStrip1) listStrip2 = repo.data
  rw [hfile]
  exact parseRoundtripL h4 h5

/-- C4 witness: the amended round trip evaluated at a concrete
configuration and repository name. -/
theorem c4_roundtrip_witness :
    parseRepoName (fileNameOf (SyncHandle.new cfgLogin "demo").pid_file) = "demo" :=
  c4_roundtrip_amended cfgLogin "demo" "/run" "msync.pid" (by decide) (by decide)
    rfl rfl (by decide) (by decide) (by decide)

/-- A list is a boolean prefix of itself followed by anything. -/
theorem isPrefixOf_append_list (a b : List Char) : a.isPrefixOf (a ++ b) = true :=
  (isPrefixOfTrueIff _ _).mpr ⟨b, rfl⟩

/-- Unfolding of the boolean prefix test on two cons cells. -/
theorem isPrefixOf_cons_unfold (a b : Char) (as bs : List Char) :
    (a :: as).isPrefixOf (b :: bs) = (a == b && as.isPrefixOf bs) := rfl

/-- A string is a prefix of itself followed by anything. -/
theorem strIsPrefixOf_append (a b : String) : strIsPrefixOf a (a ++ b) = true := by
  unfold strIsPrefixOf
  rw [String.data_append]
  exact isPrefixOf_append_list _ _

/-- The pattern "--include=" never starts a string that starts with
"--exclude=". -/
theorem incExcFalse (rest : List Char) :
    ("--include=".data).isPrefixOf ("--exclude=".data ++ rest) = false := by
  have h1 : "--include=".data = '-' :: '-' :: 'i' :: "nclude=".data := rfl
  have h2 : "--exclude=".data = '-' :: '-' :: 'e' :: "xclude=".data := rfl
  rw [h1, h2, List.cons_append, List.cons_append, List.cons_append,
    isPrefixOf_cons_unfold, isPrefixOf_cons_unfold, isPrefixOf_cons_unfold]
  have h3 : (('i' : Char) == 'e') = false := by decide
  simp [h3]

/-- C1 (corrected) counterexample: at a concrete Sync Target whose push
succeeds, the pull does follow the push, but the sole inclusion filter of
the pull argument list is the configured pull-back pattern wrapped in
literal single quotes, not the configured pattern itself. -/
theorem c1_include_filter_counterexample :
    sync_to_remote (SyncHandle.new cfgLogin "proj") (fun _ => CmdResult.ok ⟨0, ""⟩) =
      [pushArgs (SyncHandle.new cfgLogin "proj"),
       pullArgs (SyncHandle.new cfgLogin "proj")] ∧
    includeFilters (pullArgs (SyncHandle.new cfgLogin "proj")) ≠
      [(SyncHandle.new cfgLogin "proj").config.sync_back] := by
  decide

/-- C1 (amended): a push that fails to start or exits non-zero is not
followed by a pull; a push that exits zero is followed by exactly one pull,
whose argument list has the configured pull-back pattern wrapped in single
quotes as its sole inclusion filter, next to the exclude-all filter
`--exclude='*'` (quotes literal). -/
theorem c1_push_gates_pull_amended (h : SyncHandle) (run : List String → CmdResult)
    (hu : strIsPrefixOf "--include=" h.make_remote_url = false)
    (hl : strIsPrefixOf "--include=" h.local_path = false) :
    (∀ out, run (pushArgs h) = CmdResult.ok out → out.exitCode ≠ 0 →
        sync_to_remote h run = [pushArgs h]) ∧
    (run (pushArgs h) = CmdResult.execError → sync_to_remote h run = [pushArgs h]) ∧
    (∀ out, run (pushArgs h) = CmdResult.ok out → out.exitCode = 0 →
        sync_to_remote h run = [pushArgs h, pullArgs h]) ∧
    includeFilters (pullArgs h) = [squote ++ h.config.sync_back ++ squote] ∧
    ("--exclude=" ++ squote ++ "*" ++ squote) ∈ pullArgs h := by
  refine ⟨?_, ?_, ?_, ?_, ?_⟩
  · intro out hrun hne
    unfold sync_to_remote
    rw [hrun]
    simp [hne]
  · intro hrun
    unfold sync_to_remote
    rw [hrun]
  · intro out hrun hz
    unfold sync_to_remote
    rw [hrun]
    simp [hz]
  · have e0 : strIsPrefixOf "--include=" "-avz" = false := by decide
    have e1 : strIsPrefixOf "--include="
        ("--include=" ++ squote ++ h.config.sync_back ++ squote) = true := by
      rw [String.append_assoc, String.append_assoc]
      exact strIsPrefixOf_append _ _
    have e2 : strIsPrefixOf "--include="
        ("--exclude=" ++ squote ++ "*" ++ squote) = false := by
      unfold strIsPrefixOf
      rw [String.data_append, String.data_append, String.data_append,
        List.append_assoc, List.append_assoc]
      exact incExcFalse _
    unfold includeFilters
    show (List.filter _ [_, _, _, _, _]).map _ = _
    simp only [List.filter_cons, List.filter_nil, e0, e1, e2, hu, hl,
      if_true, if_false, List.map]
    apply List.cons_eq_cons.mpr
    refine ⟨?_, rfl⟩
    apply strInj
    show (("--include=" ++ squote ++ h.config.sync_back ++ squote).data).drop 10 = _
    rw [String.data_append, String.data_append, String.data_append,
      List.append_assoc, List.append_assoc]
    have hlen : ("--include=".data).length = 10 := by decide
    rw [← hlen, List.drop_left]
    simp [String.data_append]
  · show _ ∈ [_, _, _, _, _]
    simp

/-- C1 witness: the amended push/pull gating evaluated at a concrete Sync
Target, once with a failing push and once with a succeeding one. -/
theorem c1_push_gates_pull_witness :
    sync_to_remote (SyncHandle.new cfgLogin "proj") (fun _ => CmdResult.ok ⟨1, "boom"⟩) =
      [pushArgs (SyncHandle.new cfgLogin "proj")] ∧
    sync_to_remote (SyncHandle.new cfgLogin "proj") (fun _ => CmdResult.ok ⟨0, ""⟩) =
      [pushArgs (SyncHandle.new cfgLogin "proj"),
       pullArgs (SyncHandle.new cfgLogin "proj")] ∧
    includeFilters (pullArgs (SyncHandle.new cfgLogin "proj")) =
      [squote ++ (SyncHandle.new cfgLogin "proj").config.sync_back ++ squote] := by
  refine ⟨?_, ?_, ?_⟩
  · exact (c1_push_gates_pull_amended (SyncHandle.new cfgLogin "proj") _
      (by decide) (by decide)).1 ⟨1, "boom"⟩ rfl (by decide)
  · exact (c1_push_gates_pull_amended (SyncHandle.new cfgLogin "proj") _
      (by decide) (by decide)).2.2.1 ⟨0, ""⟩ rfl rfl
  · exact (c1_push_gates_pull_amended (SyncHandle.new cfgLogin "proj")
      (fun _ => CmdResult.execError) (by decide) (by decide)).2.2.2.1

/-- C5 (confirmed): start with a missing local path fails with
LocalPathMissing and mutates nothing; start with an existing PID file fails
with AlreadyRunning and mutates nothing; after a successful start a second
start returns AlreadyRunning, whatever the daemonize outcome, and exactly
one PID file for the repository remains. -/
theorem c5_start_preconditions :
    (∀ (le : String → Bool) (fs : Fs) (h : SyncHandle) (d : Option Nat),
        le h.local_path = false →
        start_sync le fs h d = (StartResult.LocalPathMissing, fs)) ∧
    (∀ (le : String → Bool) (fs : Fs) (h : SyncHandle) (d : Option Nat),
        le h.local_path = true → (readFile fs h.pid_file).isSome = true →
        start_sync le fs h d = (StartResult.AlreadyRunning, fs)) ∧
    (∀ (le : String → Bool) (fs : Fs) (h : SyncHandle) (pid : Nat) (d : Option Nat),
        le h.local_path = true → readFile fs h.pid_file = none →
        start_sync le fs h (some pid) =
          (StartResult.Started, (h.pid_file, toString pid) :: fs) ∧
        start_sync le ((h.pid_file, toString pid) :: fs) h d =
          (StartResult.AlreadyRunning, (h.pid_file, toString pid) :: fs) ∧
        countFor ((h.pid_file, toString pid) :: fs) h.pid_file = 1) := by
  refine ⟨?_, ?_, ?_⟩
  · intro le fs h d hle
    unfold start_sync
    rw [hle]
    simp
  · intro le fs h d hle hpid
    unfold start_sync
    rw [hle, hpid]
    simp
  · intro le fs h pid d hle hpid
    refine ⟨?_, ?_, ?_⟩
    · unfold start_sync
      rw [hle, hpid]
      simp
    · unfold start_sync
      rw [hle]
      simp [readFile]
    · have h0 : countFor fs h.pid_file = 0 := countFor_zero fs h.pid_file hpid
      simp [countFor, List.countP_cons] at h0 ⊢
      simpa [countFor] using h0

/-- C5 witness: the start preconditions evaluated at a concrete Sync Target
and a concrete filesystem. -/
theorem c5_start_witness :
    start_sync (fun _ => true) [] (SyncHandle.new cfgLogin "demo") (some 7) =
      (StartResult.Started, [((SyncHandle.new cfgLogin "demo").pid_file, "7")]) ∧
    start_sync (fun _ => true)
        [((SyncHandle.new cfgLogin "demo").pid_file, "7")]
        (SyncHandle.new cfgLogin "demo") (some 9) =
      (StartResult.AlreadyRunning,
        [((SyncHandle.new cfgLogin "demo").pid_file, "7")]) ∧
    countFor [((SyncHandle.new cfgLogin "demo").pid_file, "7")]
        (SyncHandle.new cfgLogin "demo").pid_file = 1 ∧
    start_sync (fun _ => false) [] (SyncHandle.new cfgLogin "demo") (some 7) =
      (StartResult.LocalPathMissing, []) := by
  have hmain := c5_start_preconditions.2.2 (fun _ => true) []
    (SyncHandle.new cfgLogin "demo") 7 (some 9) rfl rfl
  exact ⟨hmain.1, hmain.2.1, hmain.2.2,
    c5_start_preconditions.1 (fun _ => false) [] (SyncHandle.new cfgLogin "demo")
      (some 7) rfl⟩

/-- C6 (confirmed): status against a PID file whose parsed process is
absent reports the stale state and deletes the PID file; a subsequent
status finds no PID file, reports NotRunning and changes nothing. -/
theorem c6_status_stale (live : Nat → Bool) (fs : Fs) (h : SyncHandle)
    (content : String) (pid : Nat)
    (hread : readFile fs h.pid_file = some content)
    (hparse : parseU32 (rustTrim content.data) = some pid)
    (hdead : live pid = false) :
    status_sync live fs h = (StatusResult.Stale, removeFile fs h.pid_file) ∧
    readFile (removeFile fs h.pid_file) h.pid_file = none ∧
    status_sync live (removeFile fs h.pid_file) h =
      (StatusResult.NotRunning, removeFile fs h.pid_file) := by
  have hgone := readFile_removeFile fs h.pid_file
  refine ⟨?_, hgone, ?_⟩
  · simp [status_sync, hread, hparse, hdead]
  · simp [status_sync, hgone]

/-- C6 witness: the stale-status behaviour evaluated on a concrete
filesystem holding one stale PID file. -/
theorem c6_status_witness :
    status_sync (fun _ => false)
        [((SyncHandle.new cfgLogin "demo").pid_file, "42")]
        (SyncHandle.new cfgLogin "demo") = (StatusResult.Stale, []) ∧
    status_sync (fun _ => false) [] (SyncHandle.new cfgLogin "demo") =
      (StatusResult.NotRunning, []) := by
  have hmain := c6_status_stale (fun _ => false)
    [((SyncHandle.new cfgLogin "demo").pid_file, "42")]
    (SyncHandle.new cfgLogin "demo") "42" 42 (by simp [readFile]) (by decide) rfl
  have hrm : removeFile [((SyncHandle.new cfgLogin "demo").pid_file, "42")]
      (SyncHandle.new cfgLogin "demo").pid_file = ([] : Fs) := by
    simp [removeFile, List.filter_cons]
  exact ⟨by rw [← hrm]; exact hmain.1, by rw [← hrm]; exact hmain.2.2⟩

/-- Validity of a PID-file content string exactly as the claim words it:
the decimal PID as UTF-8 text with no trailing structure. -/
def specValidPidText (s : String) : Prop :=
  s ≠ "" ∧ ∀ c ∈ s.data, c.isDigit

/-- Decidability of the claim-side validity notion. -/
instance (s : String) : Decidable (specValidPidText s) := by
  unfold specValidPidText
  infer_instance

/-- C8 (corrected) counterexample: the content "42\n" is not a bare decimal
integer (it has a trailing newline), yet status does not fail with
CorruptState: the code trims the content first, parses 42, and — the
process being absent — deletes the PID file, mutating the very state the
claim says is left unchanged. -/
theorem c8_corrupt_counterexample :
    ¬ specValidPidText "42\n" ∧
    status_sync (fun _ => false)
        [((SyncHandle.new cfgLogin "demo").pid_file, "42\n")]
        (SyncHandle.new cfgLogin "demo") = (StatusResult.Stale, []) := by
  decide

/-- C8 (amended): for every content string whose whitespace-trimmed form
does not parse as an unsigned 32-bit decimal integer, stop and status both
fail with CorruptState and leave the filesystem unchanged, the PID file not
deleted. -/
theorem c8_corrupt_amended (live : Nat → Bool) (fs : Fs) (h : SyncHandle)
    (content : String)
    (hread : readFile fs h.pid_file = some content)
    (hparse : parseU32 (rustTrim content.data) = none) :
    stop_sync live fs h = (StopResult.CorruptState, fs) ∧
    status_sync live fs h = (StatusResult.CorruptState, fs) := by
  constructor
  · simp [stop_sync, hread, hparse]
  · simp [status_sync, hread, hparse]

/-- C8 witness: the amended corrupt-state behaviour evaluated on a concrete
filesystem whose PID file holds unparseable text. -/
theorem c8_corrupt_witness :
    stop_sync (fun _ => true)
        [((SyncHandle.new cfgLogin "demo").pid_file, "not-a-pid")]
        (SyncHandle.new cfgLogin "demo") =
      (StopResult.CorruptState,
        [((SyncHandle.new cfgLogin "demo").pid_file, "not-a-pid")]) ∧
    status_sync (fun _ => true)
        [((SyncHandle.new cfgLogin "demo").pid_file, "not-a-pid")]
        (SyncHandle.new cfgLogin "demo") =
      (StatusResult.CorruptState,
        [((SyncHandle.new cfgLogin "demo").pid_file, "not-a-pid")]) :=
  c8_corrupt_amended (fun _ => true)
    [((SyncHandle.new cfgLogin "demo").pid_file, "not-a-pid")]
    (SyncHandle.new cfgLogin "demo") "not-a-pid" (by simp [readFile]) (by decide)

/-- C9 (confirmed): stop with no PID file present reports the NotRunning
error and performs no filesystem mutation. -/
theorem c9_stop_not_running (live : Nat → Bool) (fs : Fs) (h : SyncHandle)
    (hread : readFile fs h.pid_file = none) :
    stop_sync live fs h = (StopResult.NotRunning, fs) := by
  unfold stop_sync
  rw [hread]

/-- C9 witness: stop on an empty PID-file directory. -/
theorem c9_stop_witness :
    stop_sync (fun _ => true) [] (SyncHandle.new cfgLogin "demo") =
      (StopResult.NotRunning, []) :=
  c9_stop_not_running (fun _ => true) [] (SyncHandle.new cfgLogin "demo") rfl

/-- C7 (confirmed): when every enumerated PID file parses, list completes,
and the PID files remaining afterwards are exactly those whose recorded
process is alive — the stale ones were deleted during enumeration — so
their number is the number M of live entries. -/
theorem c7_list_cleanup (live : Nat → Bool) (files : Fs)
    (hall : ∀ e ∈ files, (parseU32 (rustTrim e.2.data)).isSome = true) :
    (list_syncs live files).ok = true ∧
    (list_syncs live files).remaining =
      files.filter (fun e => contentLive live e.2) ∧
    (list_syncs live files).remaining.length =
      files.countP (fun e => contentLive live e.2) := by
  have key : (list_syncs live files).ok = true ∧
      (list_syncs live files).remaining =
        files.filter (fun e => contentLive live e.2) := by
    revert hall
    induction files with
    | nil => intro _; exact ⟨rfl, rfl⟩
    | cons e rest ih =>
        intro hall
        have he := hall e (List.mem_cons_self e rest)
        obtain ⟨pid, hpid⟩ := Option.isSome_iff_exists.mp he
        have ihr := ih (fun x hx => hall x (List.mem_cons_of_mem e hx))
        by_cases hl : live pid = true
        · simp [list_syncs, hpid, hl, contentLive, List.filter_cons, ihr.1, ihr.2]
        · simp [list_syncs, hpid, hl, contentLive, List.filter_cons, ihr.1, ihr.2]
  exact ⟨key.1, key.2, by rw [key.2, List.countP_eq_length_filter]⟩

/-- C7 witness: list over two parseable PID files, one live and one stale. -/
theorem c7_list_witness :
    (list_syncs (fun n => n == 1)
        [("/run/repo_sync_a.pid", "1"), ("/run/repo_sync_b.pid", "2")]).ok = true ∧
    (list_syncs (fun n => n == 1)
        [("/run/repo_sync_a.pid", "1"), ("/run/repo_sync_b.pid", "2")]).remaining =
      [("/run/repo_sync_a.pid", "1"), ("/run/repo_sync_b.pid", "2")].filter
        (fun e => contentLive (fun n => n == 1) e.2) ∧
    (list_syncs (fun n => n == 1)
        [("/run/repo_sync_a.pid", "1"), ("/run/repo_sync_b.pid", "2")]).remaining.length =
      [("/run/repo_sync_a.pid", "1"), ("/run/repo_sync_b.pid", "2")].countP
        (fun e => contentLive (fun n => n == 1) e.2) :=
  c7_list_cleanup (fun n => n == 1)
    [("/run/repo_sync_a.pid", "1"), ("/run/repo_sync_b.pid", "2")] (by decide)

/-- C10 (confirmed): when the enumeration meets a PID file whose content
does not parse, list aborts there with the error: the entries before it
were reported (and any stale ones deleted), the offending file and every
later file stay on disk unreported, stale or not. -/
theorem c10_list_abort (live : Nat → Bool) (good : Fs) (bad : String × String)
    (later : Fs)
    (hgood : ∀ e ∈ good, (parseU32 (rustTrim e.2.data)).isSome = true)
    (hbad : parseU32 (rustTrim bad.2.data) = none) :
    list_syncs live (good ++ bad :: later) =
      ⟨good.map (fun e => (parseRepoName (fileNameOf e.1), contentLive live e.2)),
       good.filter (fun e => contentLive live e.2) ++ bad :: later,
       false⟩ := by
  revert hgood
  induction good with
  | nil =>
      intro _
      simp [list_syncs, hbad]
  | cons e rest ih =>
      intro hgood
      have he := hgood e (List.mem_cons_self e rest)
      obtain ⟨pid, hpid⟩ := Option.isSome_iff_exists.mp he
      have ihr := ih (fun x hx => hgood x (List.mem_cons_of_mem e hx))
      by_cases hl : live pid = true
      · simp [list_syncs, hpid, hl, contentLive, List.filter_cons, ihr]
      · simp [list_syncs, hpid, hl, contentLive, List.filter_cons, ihr]

/-- C10 witness: a parseable live entry, then a corrupt entry, then a
parseable stale entry: list stops at the corrupt file and the stale entry
after it survives unreported. -/
theorem c10_list_abort_witness :
    list_syncs (fun n => n == 1)
        ([("/run/repo_sync_a.pid", "1")] ++
          ("/run/repo_sync_bad.pid", "oops") :: [("/run/repo_sync_c.pid", "3")]) =
      ⟨[("/run/repo_sync_a.pid", "1")].map
          (fun e => (parseRepoName (fileNameOf e.1), contentLive (fun n => n == 1) e.2)),
       [("/run/repo_sync_a.pid", "1")].filter
          (fun e => contentLive (fun n => n == 1) e.2) ++
         ("/run/repo_sync_bad.pid", "oops") :: [("/run/repo_sync_c.pid", "3")],
       false⟩ :=
  c10_list_abort (fun n => n == 1) [("/run/repo_sync_a.pid", "1")]
    ("/run/repo_sync_bad.pid", "oops") [("/run/repo_sync_c.pid", "3")]
    (by decide) (by decide)
